import Mathlib

/-!
Verification of the git-ai Notes Synchronization & Push-Interception Engine
and its OpenTelemetry export adapter.

The sync engine itself (RefState Prober, Notes Merge Engine, Push
Interceptor, Sync Orchestrator) is exercised by the integration tests in
`tests/github/push_rewrite.rs` but its implementation is not part of the
examined sources; those components are modelled here from the design
document.  The refspec strings are taken verbatim from
`tests/github/push_rewrite.rs` (`push_notes_to_remote`).  The export
adapter is embedded from `src/observability/otel.rs`.
-/

namespace GitAI

/-- Modelled from the spec (§3 NotesRef, §6 construct-merge-commit): one
commit of the notes history.  `parents` are indices of earlier notes
commits; `added` is the batch of (commit identifier, note content) pairs
this notes commit attaches. -/
structure NotesCommit where
  parents : List Nat
  added : List (Nat × Nat)
deriving DecidableEq

/-- Modelled from the spec (§3, §6): the content-addressed object store
holding the notes history DAG.  A notes commit is identified by its index;
well-formed stores only reference earlier indices as parents. -/
structure NotesStore where
  commits : List NotesCommit
deriving DecidableEq

/-- The note pairs attached by the notes commit at index `i`. -/
def addedAt (s : NotesStore) (i : Nat) : List (Nat × Nat) :=
  match s.commits.get? i with
  | some c => c.added
  | none => []

/-- Parents of the notes commit at index `b`, restricted to earlier
indices (a no-op on well-formed stores, and what makes the ancestry walk
terminate on arbitrary ones). -/
def parentsB (s : NotesStore) (b : Nat) : List Nat :=
  match s.commits.get? b with
  | some c => c.parents.filter (fun p => decide (p < b))
  | none => []

theorem mem_parentsB_lt {s : NotesStore} {b p : Nat} (h : p ∈ parentsB s b) : p < b := by
  unfold parentsB at h
  cases hg : s.commits.get? b with
  | none => rw [hg] at h; cases h
  | some c =>
      rw [hg] at h
      have := List.of_mem_filter h
      exact of_decide_eq_true this

/-- Fuel-driven ancestry walk: `ancInclFuel s fuel a b` decides whether
`a` is an ancestor of `b` (inclusively), looking at most `fuel` levels
deep.  Modelled from the spec (§4.1 ancestry check). -/
def ancInclFuel (s : NotesStore) : Nat → Nat → Nat → Bool
  | 0, _, _ => false
  | fuel + 1, a, b => a == b || (parentsB s b).any (fun p => ancInclFuel s fuel a p)

/-- `a` is an ancestor of `b` or equal to it.  Since parents always have
smaller indices, fuel `b + 1` is always enough. -/
def ancIncl (s : NotesStore) (a b : Nat) : Bool :=
  ancInclFuel s (b + 1) a b

theorem list_any_congr {α : Type} {l : List α} {p q : α → Bool}
    (h : ∀ x ∈ l, p x = q x) : l.any p = l.any q := by
  induction l with
  | nil => rfl
  | cons x t ih =>
      simp only [List.any_cons]
      rw [h x (List.mem_cons_self x t), ih (fun y hy => h y (List.mem_cons_of_mem x hy))]

theorem list_flatMap_congr {α β : Type} {l : List α} {f g : α → List β}
    (h : ∀ x ∈ l, f x = g x) : l.flatMap f = l.flatMap g := by
  induction l with
  | nil => rfl
  | cons x t ih =>
      simp only [List.flatMap_cons]
      rw [h x (List.mem_cons_self x t), ih (fun y hy => h y (List.mem_cons_of_mem x hy))]

theorem ancInclFuel_irrel (s : NotesStore) :
    ∀ f₁, ∀ b a f₂, b < f₁ → b < f₂ → ancInclFuel s f₁ a b = ancInclFuel s f₂ a b := by
  intro f₁
  induction f₁ with
  | zero => intro b a f₂ h₁ _; omega
  | succ g₁ ih =>
      intro b a f₂ h₁ h₂
      cases f₂ with
      | zero => omega
      | succ g₂ =>
          simp only [ancInclFuel]
          have : (parentsB s b).any (fun p => ancInclFuel s g₁ a p)
              = (parentsB s b).any (fun p => ancInclFuel s g₂ a p) := by
            apply list_any_congr
            intro p hp
            have hpb := mem_parentsB_lt hp
            exact ih p a g₂ (by omega) (by omega)
          rw [this]

/-- Unfolding equation for `ancIncl` in terms of itself. -/
theorem ancIncl_unfold (s : NotesStore) (a b : Nat) :
    ancIncl s a b = (a == b || (parentsB s b).any (fun p => ancIncl s a p)) := by
  show ancInclFuel s (b + 1) a b = _
  simp only [ancInclFuel]
  congr 1
  apply list_any_congr
  intro p hp
  have hpb := mem_parentsB_lt hp
  exact ancInclFuel_irrel s b p a (p + 1) (by omega) (by omega)

theorem ancIncl_refl (s : NotesStore) (a : Nat) : ancIncl s a a = true := by
  rw [ancIncl_unfold]
  simp

/-- Fuel-driven reachable-set walk of the notes DAG. -/
def reachFuel (s : NotesStore) : Nat → Nat → List Nat
  | 0, _ => []
  | fuel + 1, b => b :: (parentsB s b).flatMap (fun p => reachFuel s fuel p)

/-- All notes commits reachable from tip `b` (inclusively). -/
def reachList (s : NotesStore) (b : Nat) : List Nat :=
  reachFuel s (b + 1) b

theorem reachFuel_irrel (s : NotesStore) :
    ∀ f₁, ∀ b f₂, b < f₁ → b < f₂ → reachFuel s f₁ b = reachFuel s f₂ b := by
  intro f₁
  induction f₁ with
  | zero => intro b f₂ h₁ _; omega
  | succ g₁ ih =>
      intro b f₂ h₁ h₂
      cases f₂ with
      | zero => omega
      | succ g₂ =>
          simp only [reachFuel]
          congr 1
          apply list_flatMap_congr
          intro p hp
          have hpb := mem_parentsB_lt hp
          exact ih p g₂ (by omega) (by omega)

theorem reachList_unfold (s : NotesStore) (b : Nat) :
    reachList s b = b :: (parentsB s b).flatMap (fun p => reachList s p) := by
  show reachFuel s (b + 1) b = _
  simp only [reachFuel]
  congr 1
  apply list_flatMap_congr
  intro p hp
  have hpb := mem_parentsB_lt hp
  exact reachFuel_irrel s b p (p + 1) (by omega) (by omega)

theorem self_mem_reachList (s : NotesStore) (b : Nat) : b ∈ reachList s b := by
  rw [reachList_unfold]; exact List.mem_cons_self _ _

theorem mem_reachList_le {s : NotesStore} :
    ∀ b, ∀ x ∈ reachList s b, x ≤ b := by
  intro b
  induction b using Nat.strong_induction_on with
  | _ b ih =>
      intro x hx
      rw [reachList_unfold] at hx
      rcases List.mem_cons.mp hx with h | h
      · omega
      · rcases List.mem_flatMap.mp h with ⟨p, hp, hxp⟩
        have hpb := mem_parentsB_lt hp
        have := ih p hpb x hxp
        omega

/-- If `a` is an ancestor of `b`, everything reachable from `a` is
reachable from `b`. -/
theorem reach_subset_of_ancIncl {s : NotesStore} :
    ∀ b a, ancIncl s a b = true → ∀ x ∈ reachList s a, x ∈ reachList s b := by
  intro b
  induction b using Nat.strong_induction_on with
  | _ b ih =>
      intro a ha x hx
      rw [ancIncl_unfold] at ha
      rcases Bool.or_eq_true_iff.mp ha with h | h
      · have : a = b := by simpa using h
        subst this; exact hx
      · rcases List.any_eq_true.mp h with ⟨p, hp, hap⟩
        have hpb := mem_parentsB_lt hp
        have hxp := ih p hpb a hap x hx
        rw [reachList_unfold]
        exact List.mem_cons_of_mem _ (List.mem_flatMap.mpr ⟨p, hp, hxp⟩)

/-- The commit-to-note pairs observable from tip `t`: union over all
reachable notes commits of the pairs they attach.  Modelled from the spec
(§3 NotesRef mapping, §4.2 union keyed by commit identifier). -/
def notePairs (s : NotesStore) (t : Nat) : List (Nat × Nat) :=
  (reachList s t).flatMap (fun i => addedAt s i)

/-- A commit identifier `c` has a note when observed from tip `t`. -/
def hasNote (s : NotesStore) (t : Nat) (c : Nat) : Bool :=
  (notePairs s t).any (fun p => p.1 == c)

theorem notePairs_subset_of_ancIncl {s : NotesStore} {a b : Nat}
    (h : ancIncl s a b = true) : ∀ p ∈ notePairs s a, p ∈ notePairs s b := by
  intro p hp
  rcases List.mem_flatMap.mp hp with ⟨i, hi, hpi⟩
  exact List.mem_flatMap.mpr ⟨i, reach_subset_of_ancIncl b a h i hi, hpi⟩

/-- Appending one new notes commit to the object store (what
construct-merge-commit does, §6). -/
def appendCommit (s : NotesStore) (nc : NotesCommit) : NotesStore :=
  ⟨s.commits ++ [nc]⟩

theorem get?_appendCommit_lt {s : NotesStore} {nc : NotesCommit} {i : Nat}
    (h : i < s.commits.length) :
    (appendCommit s nc).commits.get? i = s.commits.get? i :=
  List.get?_append h

theorem parentsB_appendCommit_lt {s : NotesStore} {nc : NotesCommit} {b : Nat}
    (h : b < s.commits.length) :
    parentsB (appendCommit s nc) b = parentsB s b := by
  unfold parentsB
  rw [get?_appendCommit_lt h]

theorem addedAt_appendCommit_lt {s : NotesStore} {nc : NotesCommit} {i : Nat}
    (h : i < s.commits.length) :
    addedAt (appendCommit s nc) i = addedAt s i := by
  unfold addedAt
  rw [get?_appendCommit_lt h]

theorem parentsB_appendCommit_new (s : NotesStore) (nc : NotesCommit) :
    parentsB (appendCommit s nc) s.commits.length
      = nc.parents.filter (fun p => decide (p < s.commits.length)) := by
  unfold parentsB
  have : (appendCommit s nc).commits.get? s.commits.length = some nc :=
    List.get?_concat_length s.commits nc
  rw [this]

theorem ancInclFuel_appendCommit {s : NotesStore} {nc : NotesCommit} :
    ∀ fuel a b, b < s.commits.length →
      ancInclFuel (appendCommit s nc) fuel a b = ancInclFuel s fuel a b := by
  intro fuel
  induction fuel with
  | zero => intro a b _; rfl
  | succ g ih =>
      intro a b hb
      simp only [ancInclFuel]
      rw [parentsB_appendCommit_lt hb]
      congr 1
      apply list_any_congr
      intro p hp
      have hpb := mem_parentsB_lt hp
      exact ih a p (by omega)

theorem ancIncl_appendCommit {s : NotesStore} {nc : NotesCommit} {a b : Nat}
    (h : b < s.commits.length) :
    ancIncl (appendCommit s nc) a b = ancIncl s a b :=
  ancInclFuel_appendCommit (b + 1) a b h

theorem reachFuel_appendCommit {s : NotesStore} {nc : NotesCommit} :
    ∀ fuel b, b < s.commits.length →
      reachFuel (appendCommit s nc) fuel b = reachFuel s fuel b := by
  intro fuel
  induction fuel with
  | zero => intro b _; rfl
  | succ g ih =>
      intro b hb
      simp only [reachFuel]
      rw [parentsB_appendCommit_lt hb]
      congr 1
      apply list_flatMap_congr
      intro p hp
      have hpb := mem_parentsB_lt hp
      exact ih p (by omega)

theorem reachList_appendCommit {s : NotesStore} {nc : NotesCommit} {b : Nat}
    (h : b < s.commits.length) :
    reachList (appendCommit s nc) b = reachList s b :=
  reachFuel_appendCommit (b + 1) b h

theorem notePairs_appendCommit {s : NotesStore} {nc : NotesCommit} {b : Nat}
    (h : b < s.commits.length) :
    notePairs (appendCommit s nc) b = notePairs s b := by
  unfold notePairs
  rw [reachList_appendCommit h]
  apply list_flatMap_congr
  intro i hi
  have := mem_reachList_le b i hi
  exact addedAt_appendCommit_lt (by omega)

/-- Modelled from the spec (§4.2 Notes Merge Engine): compute a new tip
whose ancestry covers both inputs.  If one tip is already an ancestor of
the other the result is a pure fast-forward to the other tip; otherwise a
new merge commit with parent set `{local_tip, remote_tip}` (and no new
note pairs of its own — the unioned mapping is what is reachable from it)
is appended to the store. -/
def mergeTips (s : NotesStore) (lt rt : Nat) : NotesStore × Nat :=
  if ancIncl s lt rt then (s, rt)
  else if ancIncl s rt lt then (s, lt)
  else (appendCommit s ⟨[lt, rt], []⟩, s.commits.length)

theorem mergeTips_anc_left {s : NotesStore} {lt rt : Nat}
    (hl : lt < s.commits.length) (hr : rt < s.commits.length) :
    ancIncl (mergeTips s lt rt).1 lt (mergeTips s lt rt).2 = true := by
  unfold mergeTips
  split_ifs with h1 h2
  · exact h1
  · exact ancIncl_refl s lt
  · rw [ancIncl_unfold]
    apply Bool.or_eq_true_iff.mpr
    right
    apply List.any_eq_true.mpr
    refine ⟨lt, ?_, ?_⟩
    · rw [parentsB_appendCommit_new]
      simp only [List.filter]
      simp [hl, hr]
    · rw [ancIncl_appendCommit hl]
      exact ancIncl_refl s lt

theorem mergeTips_anc_right {s : NotesStore} {lt rt : Nat}
    (hl : lt < s.commits.length) (hr : rt < s.commits.length) :
    ancIncl (mergeTips s lt rt).1 rt (mergeTips s lt rt).2 = true := by
  unfold mergeTips
  split_ifs with h1 h2
  · exact ancIncl_refl s rt
  · exact h2
  · rw [ancIncl_unfold]
    apply Bool.or_eq_true_iff.mpr
    right
    apply List.any_eq_true.mpr
    refine ⟨rt, ?_, ?_⟩
    · rw [parentsB_appendCommit_new]
      simp only [List.filter]
      simp [hl, hr]
    · rw [ancIncl_appendCommit hr]
      exact ancIncl_refl s rt

theorem mergeTips_notePairs_left {s : NotesStore} {lt rt : Nat}
    (hl : lt < s.commits.length) (hr : rt < s.commits.length) :
    ∀ p ∈ notePairs s lt, p ∈ notePairs (mergeTips s lt rt).1 (mergeTips s lt rt).2 := by
  intro p hp
  have hanc := mergeTips_anc_left hl hr
  have hp' : p ∈ notePairs (mergeTips s lt rt).1 lt := by
    unfold mergeTips at *
    split_ifs at * with h1 h2
    · exact hp
    · exact hp
    · rw [notePairs_appendCommit hl]; exact hp
  exact notePairs_subset_of_ancIncl hanc p hp'

theorem mergeTips_notePairs_right {s : NotesStore} {lt rt : Nat}
    (hl : lt < s.commits.length) (hr : rt < s.commits.length) :
    ∀ p ∈ notePairs s rt, p ∈ notePairs (mergeTips s lt rt).1 (mergeTips s lt rt).2 := by
  intro p hp
  have hanc := mergeTips_anc_right hl hr
  have hp' : p ∈ notePairs (mergeTips s lt rt).1 rt := by
    unfold mergeTips at *
    split_ifs at * with h1 h2
    · exact hp
    · exact hp
    · rw [notePairs_appendCommit hr]; exact hp
  exact notePairs_subset_of_ancIncl hanc p hp'

/-- Modelled from the spec (§3): the relationship between the local notes
ref tip and a specific remote's notes ref tip. -/
inductive RefRelationship where
  | Absent
  | Equal
  | LocalAhead
  | RemoteAhead
  | Diverged
deriving DecidableEq

/-- Modelled from the spec (§4.1 RefState Prober): `probe` determines the
relationship between the local tip `lt` and the remote tip `rt` (`none`
when the remote has no notes ref at all) by ancestry checks.  Read-only:
it mutates nothing. -/
def probe (s : NotesStore) (lt : Nat) (rt : Option Nat) : RefRelationship :=
  match rt with
  | none => RefRelationship.Absent
  | some r =>
    if r = lt then RefRelationship.Equal
    else if ancIncl s r lt then RefRelationship.LocalAhead
    else if ancIncl s lt r then RefRelationship.RemoteAhead
    else RefRelationship.Diverged

/-- What the Push Interceptor appends for one remote: a forced refspec, a
plain refspec, or nothing.  Modelled from the spec (§4.3 decision
table). -/
inductive NotesAction where
  | ForcedRefspec
  | PlainRefspec
  | NoOp
deriving DecidableEq

/-- Modelled from the spec (§4.4 Sync Orchestrator, §4.3 decision table):
one Probe → Merge (if needed) → Push cycle against a single remote.
Returns the new object store, the new local tip, the new remote tip, and
the refspec form that was pushed.  `Absent` force-pushes the local tip;
`Equal` is a no-op; `LocalAhead` fast-forwards the remote; `RemoteAhead`
and `Diverged` first run the Merge Engine, update the local tip to the
merge result, then push it plainly. -/
def syncCycle (s : NotesStore) (lt : Nat) (rt : Option Nat) :
    NotesStore × Nat × Option Nat × NotesAction :=
  match rt with
  | none => (s, lt, some lt, NotesAction.ForcedRefspec)
  | some r =>
    if r = lt then (s, lt, some r, NotesAction.NoOp)
    else if ancIncl s r lt then (s, lt, some lt, NotesAction.PlainRefspec)
    else
      let m := mergeTips s lt r
      (m.1, m.2, some m.2, NotesAction.PlainRefspec)

/-- Modelled from the spec (§7): the per-remote recoverable failures. -/
inductive SyncFailure where
  | Unreachable
  | MergeFail
deriving DecidableEq

/-- Modelled from the spec (§4.4): terminal per-remote outcomes of one
invocation. -/
inductive RemoteOutcome where
  | Succeeded
  | Skipped
  | Failed
deriving DecidableEq

/-- The Merge Engine must run exactly when the relationship is
`RemoteAhead` or `Diverged` (§4.3). -/
def mergeNeeded (s : NotesStore) (lt : Nat) (rt : Option Nat) : Bool :=
  match rt with
  | none => false
  | some r => !(r == lt) && !(ancIncl s r lt)

/-- Modelled from the spec (§4.4, §7): one remote's sync with its failure
mode.  `f` is the environment's failure oracle for this remote: an
unreachable remote is skipped with no state change; a failing merge
engine leaves the local NotesRef untouched and marks the remote failed;
otherwise the full cycle runs and succeeds. -/
def syncOne (f : Option SyncFailure) (s : NotesStore) (lt : Nat) (rt : Option Nat) :
    NotesStore × Nat × Option Nat × RemoteOutcome :=
  match f with
  | some SyncFailure.Unreachable => (s, lt, rt, RemoteOutcome.Skipped)
  | some SyncFailure.MergeFail =>
      if mergeNeeded s lt rt then (s, lt, rt, RemoteOutcome.Failed)
      else
        let c := syncCycle s lt rt
        (c.1, c.2.1, c.2.2.1, RemoteOutcome.Succeeded)
  | none =>
      let c := syncCycle s lt rt
      (c.1, c.2.1, c.2.2.1, RemoteOutcome.Succeeded)

/-- Modelled from the spec (§4.4 `sync_all`): iterate the targeted
remotes independently, threading the local state, and collect one outcome
per remote.  `fail` gives each remote's failure oracle by name. -/
def syncAll (fail : String → Option SyncFailure) (s : NotesStore) (lt : Nat) :
    List (String × Option Nat) → NotesStore × Nat × List (String × RemoteOutcome)
  | [] => (s, lt, [])
  | (nm, rt) :: rest =>
      let o := syncOne (fail nm) s lt rt
      let r := syncAll fail o.1 o.2.1 rest
      (r.1, r.2.1, (nm, o.2.2.2) :: r.2.2)

/-- Outcome of probing a remote, including the unreachable case (§4.1,
§4.3 last table row). -/
inductive ProbeOutcome where
  | Unreachable
  | Rel (r : RefRelationship)
deriving DecidableEq

/-- The two refspec forms, verbatim from `push_notes_to_remote` in
`tests/github/push_rewrite.rs`: forced is `+refs/notes/ai:refs/notes/ai`,
plain is `refs/notes/ai:refs/notes/ai`. -/
def refspecFor (force : Bool) : String :=
  if force then "+refs/notes/ai:refs/notes/ai" else "refs/notes/ai:refs/notes/ai"

/-- Modelled from the spec (§4.3 decision table): the notes refspec the
Push Interceptor appends for a remote given its probed outcome. -/
def notesRefspecFor : ProbeOutcome → Option String
  | ProbeOutcome.Rel RefRelationship.Absent => some (refspecFor true)
  | ProbeOutcome.Rel RefRelationship.Equal => none
  | ProbeOutcome.Rel RefRelationship.LocalAhead => some (refspecFor false)
  | ProbeOutcome.Rel RefRelationship.RemoteAhead => some (refspecFor false)
  | ProbeOutcome.Rel RefRelationship.Diverged => some (refspecFor false)
  | ProbeOutcome.Unreachable => none

/-- Modelled from the spec (§3 PushRequest): the `(remote, refspec)`
pairs of a user invocation, verbatim. -/
structure PushRequest where
  items : List (String × String)
deriving DecidableEq

/-- The distinct remotes a push request references (§4.3:
deduplicated). -/
def remotesOf (pr : PushRequest) : List String :=
  (pr.items.map Prod.fst).dedup

/-- Modelled from the spec (§4.3): the notes refspecs the interceptor
appends — one per distinct remote whose probed outcome selects one. -/
def notesItemsFor (rel : String → ProbeOutcome) (pr : PushRequest) :
    List (String × String) :=
  (remotesOf pr).filterMap (fun rm => (notesRefspecFor (rel rm)).map (fun rs => (rm, rs)))

/-- Modelled from the spec (§4.3 `augment`): the augmented push request —
the user's own refspecs, followed by the appended notes refspecs. -/
def augment (rel : String → ProbeOutcome) (pr : PushRequest) : List (String × String) :=
  pr.items ++ notesItemsFor rel pr

/-! ## OpenTelemetry export adapter, embedded from `src/observability/otel.rs` -/

/-- `DEFAULT_OTEL_ENDPOINT` from `otel.rs`. -/
def DEFAULT_OTEL_ENDPOINT : String := "http://localhost:4317"

/-- `DEFAULT_EXPORT_INTERVAL_SECS` from `otel.rs`. -/
def DEFAULT_EXPORT_INTERVAL_SECS : Nat := 60

/-- `OtelProtocol` from `otel.rs`; its `Default` impl is `Grpc`. -/
inductive OtelProtocol where
  | Grpc
  | Http
deriving DecidableEq

/-- `OtelConfig` from `otel.rs`. -/
structure OtelConfig where
  endpoint : String
  enabled : Bool
  export_interval_secs : Nat
  auth_header : Option String
  protocol : OtelProtocol
deriving DecidableEq

/-- `OtelConfig::from_env` from `otel.rs`, with the process environment
abstracted as a partial map from variable name to value. -/
def OtelConfig.from_env (env : String → Option String) : OtelConfig :=
  let enabled := match env "GIT_AI_OTEL_ENABLED" with
    | some v => v == "1" || v.toLower == "true"
    | none => false
  let endpoint := (env "GIT_AI_OTEL_ENDPOINT").getD DEFAULT_OTEL_ENDPOINT
  let export_interval_secs :=
    ((env "GIT_AI_OTEL_EXPORT_INTERVAL").bind String.toNat?).getD DEFAULT_EXPORT_INTERVAL_SECS
  let auth_header := (env "GIT_AI_OTEL_AUTH_HEADER").filter (fun v => !v.isEmpty)
  let protocol := match env "GIT_AI_OTEL_PROTOCOL" with
    | some v => if v.toLower == "http" then OtelProtocol.Http else OtelProtocol.Grpc
    | none => OtelProtocol.Grpc
  ⟨endpoint, enabled, export_interval_secs, auth_header, protocol⟩

/-- Modelled from the spec (§6, glossary "sparse positional attribute
record"): the JSON-like values stored in a sparse record.  The concrete
value type lives in `crate::metrics::types`, which is not among the
examined sources; only the accessors `as_str`, `as_u64` and `as_array`
used by `otel.rs` are needed. -/
inductive JVal where
  | s (v : String)
  | n (v : Nat)
  | arr (vs : List JVal)

def JVal.as_str : JVal → Option String
  | JVal.s v => some v
  | _ => none

def JVal.as_u64 : JVal → Option Nat
  | JVal.n v => some v
  | _ => none

def JVal.as_array : JVal → Option (List JVal)
  | JVal.arr vs => some vs
  | _ => none

/-- Modelled from the spec (§6): a sparse, position-indexed
attribute/value record, keyed by the string form of the position. -/
abbrev SparseArray : Type := List (String × JVal)

def SparseArray.get (a : SparseArray) (k : String) : Option JVal :=
  (List.find? (fun p => p.1 == k) a).map Prod.snd

/-- Modelled from the spec (§6): a metric event — a numeric event kind
plus sparse attribute and value records (`MetricEvent` lives in
`crate::metrics::types`, not among the examined sources). -/
structure MetricEvent where
  event_id : Nat
  attrs : SparseArray
  values : SparseArray

/-- The four event kinds (`MetricEventId` in `crate::metrics::types`):
"committed", "agent usage", "checkpoint", "install hooks" (§6). -/
inductive MetricEventId where
  | Committed
  | AgentUsage
  | Checkpoint
  | InstallHooks
deriving DecidableEq

/-- Modelled from the spec: the numeric decoding of event kinds
(`MetricEventId::try_from` in `crate::metrics::types`, not among the
examined sources).  The four kinds get distinct codes; every other code
is unknown and fails to decode. -/
def MetricEventId.tryFrom : Nat → Option MetricEventId
  | 0 => some MetricEventId.Committed
  | 1 => some MetricEventId.AgentUsage
  | 2 => some MetricEventId.Checkpoint
  | 3 => some MetricEventId.InstallHooks
  | _ => none

/- Modelled from the spec (§6): the positions of the string attributes
used by `extract_attributes` (`crate::metrics::attrs::attr_pos`, not
among the examined sources; the concrete numbers are placeholders for
distinct positions). -/
namespace attr_pos

def REPO_URL : Nat := 0

def AUTHOR : Nat := 1

def COMMIT_SHA : Nat := 2

def BASE_COMMIT_SHA : Nat := 3

def BRANCH : Nat := 4

def TOOL : Nat := 5

def MODEL : Nat := 6

def PROMPT_ID : Nat := 7

end attr_pos

/- Modelled from the spec (§6): positions of the committed-event values
(`crate::metrics::events::committed_pos`, not among the examined
sources). -/
namespace committed_pos

def HUMAN_ADDITIONS : Nat := 0

def GIT_DIFF_ADDED_LINES : Nat := 1

def GIT_DIFF_DELETED_LINES : Nat := 2

def AI_ADDITIONS : Nat := 3

def AI_ACCEPTED : Nat := 4

end committed_pos

/- Modelled from the spec (§6): positions of the checkpoint-event values
(`crate::metrics::events::checkpoint_pos`, not among the examined
sources). -/
namespace checkpoint_pos

def LINES_ADDED : Nat := 0

def LINES_DELETED : Nat := 1

end checkpoint_pos

/-- A recorded measurement on a counter or histogram: the measured value
with its attribute tags. -/
abbrev Measurements : Type := List (Nat × List (String × String))

/-- `OtelMetrics` from `otel.rs`: each instrument is observed through the
sequence of measurements recorded on it. -/
structure OtelMetrics where
  committed_human_additions : Measurements
  committed_ai_additions : Measurements
  committed_diff_added : Measurements
  committed_diff_deleted : Measurements
  committed_ai_accepted : Measurements
  agent_usage_count : Measurements
  checkpoint_count : Measurements
  checkpoint_lines_added : Measurements
  checkpoint_lines_deleted : Measurements
deriving DecidableEq

/-- A fresh `OtelMetrics` with nothing recorded yet. -/
def emptyMetrics : OtelMetrics := ⟨[], [], [], [], [], [], [], [], []⟩

/-- `extract_attributes` from `otel.rs`: collect the present string
attributes, in the fixed order of the `string_attrs` table. -/
def extract_attributes (attrs : SparseArray) : List (String × String) :=
  let string_attrs : List (Nat × String) :=
    [(attr_pos.REPO_URL, "repo_url"),
     (attr_pos.AUTHOR, "author"),
     (attr_pos.COMMIT_SHA, "commit_sha"),
     (attr_pos.BASE_COMMIT_SHA, "base_commit_sha"),
     (attr_pos.BRANCH, "branch"),
     (attr_pos.TOOL, "tool"),
     (attr_pos.MODEL, "model"),
     (attr_pos.PROMPT_ID, "prompt_id")]
  string_attrs.foldl (fun result pn =>
    match (attrs.get (toString pn.1)).bind JVal.as_str with
    | some v => result ++ [(pn.2, v)]
    | none => result) []

/-- `export_committed_event` from `otel.rs`. -/
def export_committed_event (metrics : OtelMetrics) (values : SparseArray)
    (attrs : List (String × String)) : OtelMetrics :=
  let m1 := match (values.get (toString committed_pos.HUMAN_ADDITIONS)).bind JVal.as_u64 with
    | some n => { metrics with committed_human_additions := metrics.committed_human_additions ++ [(n, attrs)] }
    | none => metrics
  let m2 := match (values.get (toString committed_pos.GIT_DIFF_ADDED_LINES)).bind JVal.as_u64 with
    | some n => { m1 with committed_diff_added := m1.committed_diff_added ++ [(n, attrs)] }
    | none => m1
  let m3 := match (values.get (toString committed_pos.GIT_DIFF_DELETED_LINES)).bind JVal.as_u64 with
    | some n => { m2 with committed_diff_deleted := m2.committed_diff_deleted ++ [(n, attrs)] }
    | none => m2
  let m4 := match (values.get (toString committed_pos.AI_ADDITIONS)).bind JVal.as_array with
    | some vs =>
        let total := (vs.filterMap JVal.as_u64).sum
        if total > 0 then { m3 with committed_ai_additions := m3.committed_ai_additions ++ [(total, attrs)] }
        else m3
    | none => m3
  let m5 := match (values.get (toString committed_pos.AI_ACCEPTED)).bind JVal.as_array with
    | some vs =>
        let total := (vs.filterMap JVal.as_u64).sum
        if total > 0 then { m4 with committed_ai_accepted := m4.committed_ai_accepted ++ [(total, attrs)] }
        else m4
    | none => m4
  m5

/-- `export_agent_usage_event` from `otel.rs`. -/
def export_agent_usage_event (metrics : OtelMetrics)
    (attrs : List (String × String)) : OtelMetrics :=
  { metrics with agent_usage_count := metrics.agent_usage_count ++ [(1, attrs)] }

/-- `export_checkpoint_event` from `otel.rs`. -/
def export_checkpoint_event (metrics : OtelMetrics) (values : SparseArray)
    (attrs : List (String × String)) : OtelMetrics :=
  let m1 := { metrics with checkpoint_count := metrics.checkpoint_count ++ [(1, attrs)] }
  let m2 := match (values.get (toString checkpoint_pos.LINES_ADDED)).bind JVal.as_u64 with
    | some n => { m1 with checkpoint_lines_added := m1.checkpoint_lines_added ++ [(n, attrs)] }
    | none => m1
  let m3 := match (values.get (toString checkpoint_pos.LINES_DELETED)).bind JVal.as_u64 with
    | some n => { m2 with checkpoint_lines_deleted := m2.checkpoint_lines_deleted ++ [(n, attrs)] }
    | none => m2
  m3

/-- The process-wide `OTEL_STATE: OnceLock<Option<OtelState>>` from
`otel.rs`: either never written, or written once with the outcome of the
first initialization (`none` when disabled or failed). -/
inductive OtelGlobal where
  | unset
  | set (st : Option OtelMetrics)
deriving DecidableEq

/-- `init_otel` from `otel.rs`.  `internal` abstracts
`init_otel_internal` (exporter/reader/provider construction, an effectful
builder that can fail): it returns `some` metrics on success and `none`
on failure.  A disabled config writes `None` into the once-lock (a no-op
if it is already set) and returns `false`; otherwise `get_or_init` runs
the builder only if the lock is still unset, and the call reports whether
the stored state is `Some`. -/
def init_otel (internal : OtelConfig → Option OtelMetrics)
    (st : OtelGlobal) (config : OtelConfig) : OtelGlobal × Bool :=
  if !config.enabled then
    (match st with
     | OtelGlobal.unset => OtelGlobal.set none
     | x => x, false)
  else
    match st with
    | OtelGlobal.unset =>
        let r := internal config
        (OtelGlobal.set r, r.isSome)
    | OtelGlobal.set r => (OtelGlobal.set r, r.isSome)

/-- `ensure_otel_initialized` from `otel.rs` (lazy initialization): if
the once-lock is already set, report whether it holds a state; otherwise
initialize from the environment. -/
def ensure_otel_ready (internal : OtelConfig → Option OtelMetrics)
    (env : String → Option String) (st : OtelGlobal) : OtelGlobal × Bool :=
  match st with
  | OtelGlobal.set r => (OtelGlobal.set r, r.isSome)
  | OtelGlobal.unset => init_otel internal OtelGlobal.unset (OtelConfig.from_env env)

/-- `export_metric_event` from `otel.rs`: ensure initialization, then
route the event by its decoded kind; install-hooks events and unknown
kinds update nothing. -/
def export_metric_event (internal : OtelConfig → Option OtelMetrics)
    (env : String → Option String) (st : OtelGlobal) (e : MetricEvent) : OtelGlobal :=
  let p := ensure_otel_ready internal env st
  if !p.2 then p.1
  else
    match p.1 with
    | OtelGlobal.set (some state) =>
        let attrs := extract_attributes e.attrs
        match MetricEventId.tryFrom e.event_id with
        | some MetricEventId.Committed =>
            OtelGlobal.set (some (export_committed_event state e.values attrs))
        | some MetricEventId.AgentUsage =>
            OtelGlobal.set (some (export_agent_usage_event state attrs))
        | some MetricEventId.Checkpoint =>
            OtelGlobal.set (some (export_checkpoint_event state e.values attrs))
        | some MetricEventId.InstallHooks => OtelGlobal.set (some state)
        | none => OtelGlobal.set (some state)
    | x => x

/-! ## Supporting lemmas -/

theorem syncCycle_remote_eq_local (s : NotesStore) (lt : Nat) (rt : Option Nat) :
    (syncCycle s lt rt).2.2.1 = some (syncCycle s lt rt).2.1 := by
  cases rt with
  | none => rfl
  | some r =>
      simp only [syncCycle]
      split_ifs with h1 h2
      · rw [h1]
      · rfl
      · rfl

theorem syncCycle_notePairs (s : NotesStore) (lt : Nat) (rt : Option Nat)
    (hl : lt < s.commits.length) (hr : ∀ r, rt = some r → r < s.commits.length) :
    (∀ p ∈ notePairs s lt, p ∈ notePairs (syncCycle s lt rt).1 (syncCycle s lt rt).2.1) ∧
    (∀ r, rt = some r →
      ∀ p ∈ notePairs s r, p ∈ notePairs (syncCycle s lt rt).1 (syncCycle s lt rt).2.1) := by
  cases rt with
  | none =>
      refine ⟨fun p hp => hp, ?_⟩
      intro r h
      exact Option.noConfusion h
  | some r =>
      have hrv : r < s.commits.length := hr r rfl
      simp only [syncCycle]
      split_ifs with h1 h2
      · subst h1
        exact ⟨fun p hp => hp, fun r' h p hp => by cases h; exact hp⟩
      · refine ⟨fun p hp => hp, ?_⟩
        intro r' h p hp
        cases h
        exact notePairs_subset_of_ancIncl h2 p hp
      · refine ⟨mergeTips_notePairs_left hl hrv, ?_⟩
        intro r' h p hp
        cases h
        exact mergeTips_notePairs_right hl hrv p hp

theorem mem_notesItemsFor {rel : String → ProbeOutcome} {pr : PushRequest}
    {rm rs : String} :
    (rm, rs) ∈ notesItemsFor rel pr
      ↔ rm ∈ remotesOf pr ∧ notesRefspecFor (rel rm) = some rs := by
  unfold notesItemsFor
  rw [List.mem_filterMap]
  constructor
  · rintro ⟨a, ha, hfa⟩
    rcases Option.map_eq_some'.mp hfa with ⟨rs', hrs', heq⟩
    have h1 : a = rm := congrArg Prod.fst heq
    have h2 : rs' = rs := congrArg Prod.snd heq
    subst h1
    subst h2
    exact ⟨ha, hrs'⟩
  · rintro ⟨hmem, hsome⟩
    exact ⟨rm, hmem, by rw [hsome]; rfl⟩

theorem refspecFor_true_ne_false : refspecFor true ≠ refspecFor false := by decide

/-! ## Claims -/

/-- C2: For every operation the engine performs (probe is read-only by
construction; merge and push are the state changes inside `syncOne`), on
every replica, the commit-to-note mapping never shrinks: every
(commit, note) pair observable from the local tip before the operation is
observable from the local tip afterwards, and likewise for the remote tip
— so a note attached to a commit is never deleted or replaced. -/
theorem claim_C2_monotonic (f : Option SyncFailure) (s : NotesStore) (lt : Nat)
    (rt : Option Nat) (hl : lt < s.commits.length)
    (hr : ∀ r, rt = some r → r < s.commits.length) :
    (∀ p ∈ notePairs s lt, p ∈ notePairs (syncOne f s lt rt).1 (syncOne f s lt rt).2.1) ∧
    (∀ r, rt = some r → ∃ r', (syncOne f s lt rt).2.2.1 = some r' ∧
      ∀ p ∈ notePairs s r, p ∈ notePairs (syncOne f s lt rt).1 r') := by
  have hcyc := syncCycle_notePairs s lt rt hl hr
  have hrem := syncCycle_remote_eq_local s lt rt
  cases f with
  | none =>
      refine ⟨hcyc.1, ?_⟩
      intro r h
      exact ⟨(syncCycle s lt rt).2.1, hrem, fun p hp => hcyc.2 r h p hp⟩
  | some sf =>
      cases sf with
      | Unreachable =>
          exact ⟨fun p hp => hp, fun r h => ⟨r, h, fun p hp => hp⟩⟩
      | MergeFail =>
          cases hm : mergeNeeded s lt rt with
          | true =>
              simp only [syncOne, hm, if_true]
              exact ⟨fun p hp => hp, fun r h => ⟨r, h, fun p hp => hp⟩⟩
          | false =>
              simp only [syncOne, hm, Bool.false_eq_true, if_false]
              refine ⟨hcyc.1, ?_⟩
              intro r h
              exact ⟨(syncCycle s lt rt).2.1, hrem, fun p hp => hcyc.2 r h p hp⟩

/-- C2 witness: a concrete diverged merge where both replicas' notes
survive. -/
theorem claim_C2_monotonic_witness :
    (1 < (NotesStore.mk [⟨[], [(10, 100)]⟩, ⟨[0], [(11, 101)]⟩, ⟨[0], [(12, 102)]⟩]).commits.length ∧
     ∀ r, (some 2 : Option Nat) = some r →
       r < (NotesStore.mk [⟨[], [(10, 100)]⟩, ⟨[0], [(11, 101)]⟩, ⟨[0], [(12, 102)]⟩]).commits.length) ∧
    ((∀ p ∈ notePairs (NotesStore.mk [⟨[], [(10, 100)]⟩, ⟨[0], [(11, 101)]⟩, ⟨[0], [(12, 102)]⟩]) 1,
        p ∈ notePairs (syncOne none (NotesStore.mk [⟨[], [(10, 100)]⟩, ⟨[0], [(11, 101)]⟩, ⟨[0], [(12, 102)]⟩]) 1 (some 2)).1
              (syncOne none (NotesStore.mk [⟨[], [(10, 100)]⟩, ⟨[0], [(11, 101)]⟩, ⟨[0], [(12, 102)]⟩]) 1 (some 2)).2.1) ∧
     (∀ r, (some 2 : Option Nat) = some r →
       ∃ r', (syncOne none (NotesStore.mk [⟨[], [(10, 100)]⟩, ⟨[0], [(11, 101)]⟩, ⟨[0], [(12, 102)]⟩]) 1 (some 2)).2.2.1 = some r' ∧
         ∀ p ∈ notePairs (NotesStore.mk [⟨[], [(10, 100)]⟩, ⟨[0], [(11, 101)]⟩, ⟨[0], [(12, 102)]⟩]) r,
           p ∈ notePairs (syncOne none (NotesStore.mk [⟨[], [(10, 100)]⟩, ⟨[0], [(11, 101)]⟩, ⟨[0], [(12, 102)]⟩]) 1 (some 2)).1 r')) :=
  ⟨⟨by decide, fun r h => by cases h; decide⟩,
   claim_C2_monotonic none _ 1 (some 2) (by decide) (fun r h => by cases h; decide)⟩

/-- C3: The merge result's tip is a descendant of whichever input tip is
not already an ancestor of the other (both directions stated, each under
the corresponding non-ancestry hypothesis); and after a `RemoteAhead` or
`Diverged` sync cycle, the new local tip has the pre-sync remote tip as
an ancestor. -/
theorem claim_C3_merge_descendant (s : NotesStore) (lt rt : Nat)
    (hl : lt < s.commits.length) (hr : rt < s.commits.length) :
    (¬ ancIncl s lt rt = true →
      ancIncl (mergeTips s lt rt).1 lt (mergeTips s lt rt).2 = true) ∧
    (¬ ancIncl s rt lt = true →
      ancIncl (mergeTips s lt rt).1 rt (mergeTips s lt rt).2 = true) ∧
    ((probe s lt (some rt) = RefRelationship.RemoteAhead ∨
      probe s lt (some rt) = RefRelationship.Diverged) →
      ancIncl (syncCycle s lt (some rt)).1 rt (syncCycle s lt (some rt)).2.1 = true) := by
  refine ⟨fun _ => mergeTips_anc_left hl hr, fun _ => mergeTips_anc_right hl hr, ?_⟩
  intro hprobe
  have hne : ¬ rt = lt := by
    intro h
    simp only [probe, h, if_pos rfl] at hprobe
    rcases hprobe with h' | h' <;> cases h'
  have hnanc : ¬ ancIncl s rt lt = true := by
    intro h
    simp only [probe, if_neg hne, h, if_true] at hprobe
    rcases hprobe with h' | h' <;> cases h'
  simp only [syncCycle, if_neg hne, hnanc, if_false]
  exact mergeTips_anc_right hl hr

/-- C3 witness: merging two concretely diverged tips. -/
theorem claim_C3_merge_descendant_witness :
    (1 < (NotesStore.mk [⟨[], [(10, 100)]⟩, ⟨[0], [(11, 101)]⟩, ⟨[0], [(12, 102)]⟩]).commits.length ∧
     2 < (NotesStore.mk [⟨[], [(10, 100)]⟩, ⟨[0], [(11, 101)]⟩, ⟨[0], [(12, 102)]⟩]).commits.length) ∧
    ((¬ ancIncl (NotesStore.mk [⟨[], [(10, 100)]⟩, ⟨[0], [(11, 101)]⟩, ⟨[0], [(12, 102)]⟩]) 1 2 = true →
      ancIncl (mergeTips (NotesStore.mk [⟨[], [(10, 100)]⟩, ⟨[0], [(11, 101)]⟩, ⟨[0], [(12, 102)]⟩]) 1 2).1 1
        (mergeTips (NotesStore.mk [⟨[], [(10, 100)]⟩, ⟨[0], [(11, 101)]⟩, ⟨[0], [(12, 102)]⟩]) 1 2).2 = true) ∧
     (¬ ancIncl (NotesStore.mk [⟨[], [(10, 100)]⟩, ⟨[0], [(11, 101)]⟩, ⟨[0], [(12, 102)]⟩]) 2 1 = true →
      ancIncl (mergeTips (NotesStore.mk [⟨[], [(10, 100)]⟩, ⟨[0], [(11, 101)]⟩, ⟨[0], [(12, 102)]⟩]) 1 2).1 2
        (mergeTips (NotesStore.mk [⟨[], [(10, 100)]⟩, ⟨[0], [(11, 101)]⟩, ⟨[0], [(12, 102)]⟩]) 1 2).2 = true) ∧
     ((probe (NotesStore.mk [⟨[], [(10, 100)]⟩, ⟨[0], [(11, 101)]⟩, ⟨[0], [(12, 102)]⟩]) 1 (some 2) = RefRelationship.RemoteAhead ∨
       probe (NotesStore.mk [⟨[], [(10, 100)]⟩, ⟨[0], [(11, 101)]⟩, ⟨[0], [(12, 102)]⟩]) 1 (some 2) = RefRelationship.Diverged) →
      ancIncl (syncCycle (NotesStore.mk [⟨[], [(10, 100)]⟩, ⟨[0], [(11, 101)]⟩, ⟨[0], [(12, 102)]⟩]) 1 (some 2)).1 2
        (syncCycle (NotesStore.mk [⟨[], [(10, 100)]⟩, ⟨[0], [(11, 101)]⟩, ⟨[0], [(12, 102)]⟩]) 1 (some 2)).2.1 = true)) :=
  ⟨⟨by decide, by decide⟩, claim_C3_merge_descendant _ 1 2 (by decide) (by decide)⟩

/-- C6: Running the sync cycle a second time against the unchanged
result of a first run probes `Equal` and performs no push (the no-op
action, with store, local tip and remote tip all unchanged). -/
theorem claim_C6_idempotent (s : NotesStore) (lt : Nat) (rt : Option Nat) :
    probe (syncCycle s lt rt).1 (syncCycle s lt rt).2.1 (syncCycle s lt rt).2.2.1
      = RefRelationship.Equal ∧
    syncCycle (syncCycle s lt rt).1 (syncCycle s lt rt).2.1 (syncCycle s lt rt).2.2.1
      = ((syncCycle s lt rt).1, (syncCycle s lt rt).2.1, (syncCycle s lt rt).2.2.1,
         NotesAction.NoOp) := by
  rw [syncCycle_remote_eq_local s lt rt]
  constructor
  · simp [probe]
  · simp [syncCycle]

theorem notesRefspecFor_eq_forced (o : ProbeOutcome) :
    notesRefspecFor o = some (refspecFor true)
      ↔ o = ProbeOutcome.Rel RefRelationship.Absent := by
  cases o with
  | Unreachable => simp [notesRefspecFor]
  | Rel r =>
      cases r <;> simp [notesRefspecFor] <;>
        exact fun h => refspecFor_true_ne_false h.symm

theorem notesRefspecFor_cases {o : ProbeOutcome} {rs : String}
    (h : notesRefspecFor o = some rs) :
    rs = refspecFor true ∨ rs = refspecFor false := by
  cases o with
  | Unreachable => exact Option.noConfusion h
  | Rel r =>
      cases r with
      | Absent => exact Or.inl (Option.some.inj h).symm
      | Equal => exact Option.noConfusion h
      | LocalAhead => exact Or.inr (Option.some.inj h).symm
      | RemoteAhead => exact Or.inr (Option.some.inj h).symm
      | Diverged => exact Or.inr (Option.some.inj h).symm

/-- C1: The augmented push request carries the forced notes refspec for a
target remote exactly when that remote probed `Absent`; all other probed
outcomes yield the plain refspec or no notes refspec at all, and the
appended notes refspecs follow the user's own refspecs. -/
theorem claim_C1_forced_iff_absent (rel : String → ProbeOutcome) (pr : PushRequest)
    (rm : String) (h : rm ∈ remotesOf pr) :
    augment rel pr = pr.items ++ notesItemsFor rel pr ∧
    ((rm, refspecFor true) ∈ notesItemsFor rel pr
      ↔ rel rm = ProbeOutcome.Rel RefRelationship.Absent) ∧
    (rel rm ≠ ProbeOutcome.Rel RefRelationship.Absent →
      ∀ rs, (rm, rs) ∈ notesItemsFor rel pr → rs = refspecFor false) := by
  refine ⟨rfl, ?_, ?_⟩
  · rw [mem_notesItemsFor]
    constructor
    · rintro ⟨_, hsome⟩
      exact (notesRefspecFor_eq_forced (rel rm)).mp hsome
    · intro habs
      refine ⟨h, ?_⟩
      rw [habs]
      rfl
  · intro hne rs hmem
    have hsome := (mem_notesItemsFor.mp hmem).2
    rcases notesRefspecFor_cases hsome with h1 | h1
    · subst h1
      exact absurd ((notesRefspecFor_eq_forced (rel rm)).mp hsome) hne
    · exact h1

/-- A one-remote, one-branch push request used as a concrete input. -/
def onePushReq : PushRequest := ⟨[("origin", "refs/heads/main:refs/heads/main")]⟩

/-- A probe oracle reporting every remote's notes ref absent. -/
def allAbsent : String → ProbeOutcome := fun _ => ProbeOutcome.Rel RefRelationship.Absent

/-- A probe oracle reporting every remote equal. -/
def allEqual : String → ProbeOutcome := fun _ => ProbeOutcome.Rel RefRelationship.Equal

/-- C1 witness: a concrete absent remote receives the forced refspec. -/
theorem claim_C1_forced_iff_absent_witness :
    "origin" ∈ remotesOf onePushReq ∧
    (augment allAbsent onePushReq = onePushReq.items ++ notesItemsFor allAbsent onePushReq ∧
     (("origin", refspecFor true) ∈ notesItemsFor allAbsent onePushReq
       ↔ allAbsent "origin" = ProbeOutcome.Rel RefRelationship.Absent) ∧
     (allAbsent "origin" ≠ ProbeOutcome.Rel RefRelationship.Absent →
       ∀ rs, ("origin", rs) ∈ notesItemsFor allAbsent onePushReq → rs = refspecFor false)) :=
  ⟨by decide, claim_C1_forced_iff_absent allAbsent onePushReq "origin" (by decide)⟩

/-- C4: In `sync_all`, each listed remote whose own failure oracle is
clear always succeeds, and each unreachable one is always skipped —
whatever the failure oracle says about every other remote, and wherever
the remote sits in the list. -/
theorem claim_C4_outcome_isolated (fail : String → Option SyncFailure) (s : NotesStore)
    (lt : Nat) (remotes : List (String × Option Nat)) (i : Nat) (nm : String)
    (rt : Option Nat) (hget : remotes.get? i = some (nm, rt)) :
    (fail nm = none →
      (syncAll fail s lt remotes).2.2.get? i = some (nm, RemoteOutcome.Succeeded)) ∧
    (fail nm = some SyncFailure.Unreachable →
      (syncAll fail s lt remotes).2.2.get? i = some (nm, RemoteOutcome.Skipped)) := by
  induction remotes generalizing s lt i with
  | nil => cases hget
  | cons hd rest ih =>
      obtain ⟨nm', rt'⟩ := hd
      cases i with
      | zero =>
          have hhd : (nm', rt') = (nm, rt) := Option.some.inj hget
          have h1 : nm' = nm := congrArg Prod.fst hhd
          have h2 : rt' = rt := congrArg Prod.snd hhd
          subst h1
          subst h2
          constructor
          · intro hf
            simp only [syncAll, List.get?_cons_zero]
            rw [hf]
            rfl
          · intro hf
            simp only [syncAll, List.get?_cons_zero]
            rw [hf]
            rfl
      | succ i =>
          simp only [syncAll, List.get?_cons_succ]
          exact ih _ _ i hget

/-- A concrete store: notes commit 0 is the root, 1 and 2 diverge from
it. -/
def demoStore : NotesStore :=
  ⟨[⟨[], [(10, 100)]⟩, ⟨[0], [(11, 101)]⟩, ⟨[0], [(12, 102)]⟩]⟩

/-- A failure oracle making exactly the remote "fork" unreachable. -/
def failFork : String → Option SyncFailure :=
  fun nm => if nm == "fork" then some SyncFailure.Unreachable else none

/-- A two-remote invocation with the failing remote listed first. -/
def twoRemotes : List (String × Option Nat) := [("fork", some 2), ("origin", some 0)]

/-- C4 witness: with "fork" unreachable and listed first, "origin" still
succeeds. -/
theorem claim_C4_outcome_isolated_witness :
    twoRemotes.get? 1 = some ("origin", some 0) ∧
    (syncAll failFork demoStore 1 twoRemotes).2.2.get? 1
      = some ("origin", RemoteOutcome.Succeeded) :=
  ⟨by decide,
   (claim_C4_outcome_isolated failFork demoStore 1 twoRemotes 1 "origin" (some 0)
     (by decide)).1 (by decide)⟩

theorem filterMapKey_count (f : String → Option String) :
    ∀ l : List String, l.Nodup → ∀ rm : String,
      ((l.filterMap (fun a => (f a).map (fun rs => (a, rs)))).filter
        (fun p => p.1 == rm)).length
        = if rm ∈ l ∧ (f rm).isSome then 1 else 0 := by
  intro l
  induction l with
  | nil => intro _ rm; simp
  | cons a t ih =>
      intro hnd rm
      have hat : a ∉ t := (List.nodup_cons.mp hnd).1
      have hndt : t.Nodup := (List.nodup_cons.mp hnd).2
      by_cases hrm : rm = a
      · subst hrm
        cases hfa : f rm with
        | none =>
            simp only [List.filterMap_cons, hfa, Option.map_none']
            rw [ih hndt rm]
            simp [hat, hfa]
        | some rs =>
            simp only [List.filterMap_cons, hfa, Option.map_some', List.filter_cons]
            have hbeq : ((rm, rs).1 == rm) = true := by simp
            simp only [hbeq, if_true, List.length_cons]
            rw [ih hndt rm]
            simp [hat, hfa]
      · cases hfa : f a with
        | none =>
            simp only [List.filterMap_cons, hfa, Option.map_none']
            rw [ih hndt rm]
            simp [hrm]
        | some rs =>
            simp only [List.filterMap_cons, hfa, Option.map_some', List.filter_cons]
            have hbeq : ((a, rs).1 == rm) = false := by
              simp only [beq_eq_false_iff_ne]
              exact fun hh => hrm hh.symm
            simp only [hbeq, Bool.false_eq_true, if_false]
            rw [ih hndt rm]
            simp [hrm]

/-- C5 (amended): `augment` appends at most one notes refspec per
distinct remote referenced by the request — exactly one when the probed
outcome selects a refspec, and none when it is `Equal` or the remote is
unreachable — and the appended refspecs follow the user's own
refspecs. -/
theorem claim_C5_one_refspec_per_remote (rel : String → ProbeOutcome)
    (pr : PushRequest) (rm : String) :
    augment rel pr = pr.items ++ notesItemsFor rel pr ∧
    ((notesItemsFor rel pr).filter (fun p => p.1 == rm)).length
      = (if rm ∈ remotesOf pr ∧ (notesRefspecFor (rel rm)).isSome then 1 else 0) := by
  refine ⟨rfl, ?_⟩
  exact filterMapKey_count (fun a => notesRefspecFor (rel a)) (remotesOf pr)
    (List.nodup_dedup _) rm

/-- C5 counterexample: a request naming one remote whose probed
relationship is `Equal` gets zero appended notes refspecs, not exactly
one. -/
theorem claim_C5_counterexample :
    "origin" ∈ remotesOf onePushReq ∧
    ¬ ((notesItemsFor allEqual onePushReq).filter
        (fun p => p.1 == "origin")).length = 1 := by
  decide

/-- C7: With every `GIT_AI_OTEL_*` variable unset, `from_env` yields the
disabled default configuration (default endpoint, 60-second interval,
gRPC, no auth header), `init_otel` on it returns `false`, and
`export_metric_event` then exports nothing for any event. -/
theorem claim_C7_no_config_disables (env : String → Option String)
    (h1 : env "GIT_AI_OTEL_ENABLED" = none)
    (h2 : env "GIT_AI_OTEL_ENDPOINT" = none)
    (h3 : env "GIT_AI_OTEL_EXPORT_INTERVAL" = none)
    (h4 : env "GIT_AI_OTEL_AUTH_HEADER" = none)
    (h5 : env "GIT_AI_OTEL_PROTOCOL" = none) :
    OtelConfig.from_env env
      = ⟨DEFAULT_OTEL_ENDPOINT, false, DEFAULT_EXPORT_INTERVAL_SECS, none,
         OtelProtocol.Grpc⟩ ∧
    (∀ internal st, (init_otel internal st (OtelConfig.from_env env)).2 = false) ∧
    (∀ internal e, export_metric_event internal env OtelGlobal.unset e
      = OtelGlobal.set none) ∧
    (∀ internal e, export_metric_event internal env (OtelGlobal.set none) e
      = OtelGlobal.set none) := by
  have hcfg : OtelConfig.from_env env
      = ⟨DEFAULT_OTEL_ENDPOINT, false, DEFAULT_EXPORT_INTERVAL_SECS, none,
         OtelProtocol.Grpc⟩ := by
    unfold OtelConfig.from_env
    rw [h1, h2, h3, h4, h5]
    rfl
  refine ⟨hcfg, ?_, ?_, ?_⟩
  · intro internal st
    rw [hcfg]
    cases st <;> rfl
  · intro internal e
    unfold export_metric_event ensure_otel_ready
    rw [hcfg]
    rfl
  · intro internal e
    rfl

/-- The environment with no variable set. -/
def noEnv : String → Option String := fun _ => none

/-- An always-succeeding exporter builder. -/
def okInternal : OtelConfig → Option OtelMetrics := fun _ => some emptyMetrics

/-- C7 witness: the fully empty environment. -/
theorem claim_C7_no_config_disables_witness :
    (noEnv "GIT_AI_OTEL_ENABLED" = none ∧ noEnv "GIT_AI_OTEL_ENDPOINT" = none ∧
     noEnv "GIT_AI_OTEL_EXPORT_INTERVAL" = none ∧
     noEnv "GIT_AI_OTEL_AUTH_HEADER" = none ∧ noEnv "GIT_AI_OTEL_PROTOCOL" = none) ∧
    (OtelConfig.from_env noEnv
      = ⟨DEFAULT_OTEL_ENDPOINT, false, DEFAULT_EXPORT_INTERVAL_SECS, none,
         OtelProtocol.Grpc⟩ ∧
     (∀ internal st, (init_otel internal st (OtelConfig.from_env noEnv)).2 = false) ∧
     (∀ internal e, export_metric_event internal noEnv OtelGlobal.unset e
       = OtelGlobal.set none) ∧
     (∀ internal e, export_metric_event internal noEnv (OtelGlobal.set none) e
       = OtelGlobal.set none)) :=
  ⟨⟨rfl, rfl, rfl, rfl, rfl⟩,
   claim_C7_no_config_disables noEnv rfl rfl rfl rfl rfl⟩

/-- C8: An install-hooks event updates no counter and no histogram (the
metrics state is returned unchanged), while committed, agent-usage and
checkpoint events are routed to their respective exporters. -/
theorem claim_C8_install_hooks_not_exported (internal : OtelConfig → Option OtelMetrics)
    (env : String → Option String) (ms : OtelMetrics) (e : MetricEvent) :
    (MetricEventId.tryFrom e.event_id = some MetricEventId.InstallHooks →
      export_metric_event internal env (OtelGlobal.set (some ms)) e
        = OtelGlobal.set (some ms)) ∧
    (MetricEventId.tryFrom e.event_id = some MetricEventId.Committed →
      export_metric_event internal env (OtelGlobal.set (some ms)) e
        = OtelGlobal.set (some (export_committed_event ms e.values
            (extract_attributes e.attrs)))) ∧
    (MetricEventId.tryFrom e.event_id = some MetricEventId.AgentUsage →
      export_metric_event internal env (OtelGlobal.set (some ms)) e
        = OtelGlobal.set (some (export_agent_usage_event ms
            (extract_attributes e.attrs)))) ∧
    (MetricEventId.tryFrom e.event_id = some MetricEventId.Checkpoint →
      export_metric_event internal env (OtelGlobal.set (some ms)) e
        = OtelGlobal.set (some (export_checkpoint_event ms e.values
            (extract_attributes e.attrs)))) := by
  refine ⟨?_, ?_, ?_, ?_⟩ <;>
    · intro h
      unfold export_metric_event ensure_otel_ready
      rw [h]
      rfl

/-- C8 witness: a concrete install-hooks event leaves the metrics state
unchanged. -/
theorem claim_C8_install_hooks_not_exported_witness :
    MetricEventId.tryFrom (MetricEvent.mk 3 [] []).event_id
      = some MetricEventId.InstallHooks ∧
    export_metric_event okInternal noEnv (OtelGlobal.set (some emptyMetrics))
      (MetricEvent.mk 3 [] []) = OtelGlobal.set (some emptyMetrics) :=
  ⟨rfl, (claim_C8_install_hooks_not_exported okInternal noEnv emptyMetrics
    (MetricEvent.mk 3 [] [])).1 rfl⟩

/-- C9: Once the once-lock holds a value, no later `init_otel` call —
with any configuration — changes it, and lazy initialization reports
exactly the stored state. -/
theorem claim_C9_global_state_immutable (r : Option OtelMetrics)
    (internal : OtelConfig → Option OtelMetrics) (cfg : OtelConfig)
    (env : String → Option String) :
    (init_otel internal (OtelGlobal.set r) cfg).1 = OtelGlobal.set r ∧
    (ensure_otel_ready internal env (OtelGlobal.set r)).1 = OtelGlobal.set r ∧
    (ensure_otel_ready internal env (OtelGlobal.set r)).2 = r.isSome := by
  refine ⟨?_, rfl, rfl⟩
  unfold init_otel
  split <;> rfl

/-- C10: An event whose numeric kind decodes to no known
`MetricEventId` variant is silently skipped: the embedding of
`export_metric_event` is a total function and returns the metrics state
unchanged. -/
theorem claim_C10_unknown_event_skipped (internal : OtelConfig → Option OtelMetrics)
    (env : String → Option String) (ms : OtelMetrics) (e : MetricEvent)
    (h : MetricEventId.tryFrom e.event_id = none) :
    export_metric_event internal env (OtelGlobal.set (some ms)) e
      = OtelGlobal.set (some ms) := by
  unfold export_metric_event ensure_otel_ready
  rw [h]
  rfl

/-- C10 witness: event code 99 decodes to nothing and is skipped. -/
theorem claim_C10_unknown_event_skipped_witness :
    MetricEventId.tryFrom (MetricEvent.mk 99 [] []).event_id = none ∧
    export_metric_event okInternal noEnv (OtelGlobal.set (some emptyMetrics))
      (MetricEvent.mk 99 [] []) = OtelGlobal.set (some emptyMetrics) :=
  ⟨rfl, claim_C10_unknown_event_skipped okInternal noEnv emptyMetrics
    (MetricEvent.mk 99 [] []) rfl⟩

end GitAI
